import Mathlib

/-!
Verification of the collage application (`src/app.py`).

The development embeds, from the source:
* the grid planner duplicated inside `create_preview`, `create_word_doc`
  and `create_png` (the `if num == 1 ... else c = ceil(sqrt(num));
  r = ceil(num / c)` ladder),
* the row-major double fill loop shared by the composers (`for i in
  range(r): for j in range(c): if idx >= num: break ...; idx += 1`),
* the per-cell body of each composer: the raster paste position
  `(j*cw, t_h + i*ch)` in `create_png`, and for `create_word_doc` the
  cell formatting calls, the temporary-file round trip and the
  `try/except: pass` that swallows per-image failures,
* the download filename f-strings of the main app section.

Image decoding, resizing and document serialisation are external
libraries; a per-image step is abstracted by boolean outcome flags
(decode succeeded, temp-file save succeeded, picture insertion
succeeded), which is exactly the granularity at which the source's
`try` block can fail.
-/

namespace Collage

/-- `math.ceil(math.sqrt(n))` on naturals: `Nat.sqrt` is the floor square
root, so the ceiling is `Nat.sqrt n` when `n` is a perfect square and
`Nat.sqrt n + 1` otherwise. -/
def csqrt (n : Nat) : Nat :=
  if Nat.sqrt n * Nat.sqrt n = n then Nat.sqrt n else Nat.sqrt n + 1

/-- `math.ceil(a / b)` for naturals `a`, `b`. -/
def cdiv (a b : Nat) : Nat := (a + b - 1) / b

/-- The grid planner, duplicated verbatim in `create_preview`
(src/app.py:107-113), `create_word_doc` (src/app.py:156-162) and
`create_png` (src/app.py:215-221): returns `(columns, rows)`. -/
def plan (num : Nat) : Nat × Nat :=
  if num = 1 then (1, 1)
  else if num ≤ 4 then (2, 2)
  else if num ≤ 9 then (3, 3)
  else if num ≤ 16 then (4, 4)
  else
    let c := csqrt num
    (c, cdiv num c)

lemma csqrt_pos (n : Nat) (h : 0 < n) : 0 < csqrt n := by
  unfold csqrt
  split
  · rename_i hsq
    rcases Nat.eq_zero_or_pos (Nat.sqrt n) with h0 | h1
    · rw [h0] at hsq; omega
    · exact h1
  · omega

lemma le_csqrt_sq (n : Nat) : n ≤ csqrt n * csqrt n := by
  unfold csqrt
  split
  · rename_i hsq; omega
  · have := Nat.lt_succ_sqrt n
    have h1 : Nat.succ (Nat.sqrt n) = Nat.sqrt n + 1 := rfl
    rw [h1] at this
    omega

lemma csqrt_pred_sq_lt (n : Nat) (h : 0 < n) : (csqrt n - 1) * (csqrt n - 1) < n := by
  have hle := Nat.sqrt_le n
  unfold csqrt
  split
  · rename_i hsq
    have hp : 0 < Nat.sqrt n := by
      rcases Nat.eq_zero_or_pos (Nat.sqrt n) with h0 | h1
      · rw [h0] at hsq; omega
      · exact h1
    calc (Nat.sqrt n - 1) * (Nat.sqrt n - 1)
        < Nat.sqrt n * Nat.sqrt n := by
          apply Nat.mul_lt_mul_of_lt_of_le <;> omega
      _ = n := hsq
  · rename_i hsq
    have h2 : Nat.sqrt n + 1 - 1 = Nat.sqrt n := rfl
    rw [h2]
    omega

lemma le_mul_cdiv (a b : Nat) (hb : 0 < b) : a ≤ b * cdiv a b := by
  unfold cdiv
  have h1 := Nat.div_add_mod (a + b - 1) b
  have h2 : (a + b - 1) % b < b := Nat.mod_lt _ hb
  omega

lemma mul_cdiv_pred_lt (a b : Nat) (ha : 0 < a) (hb : 0 < b) :
    b * (cdiv a b - 1) < a := by
  unfold cdiv
  have h1 := Nat.div_add_mod (a + b - 1) b
  have h2 : (a + b - 1) % b < b := Nat.mod_lt _ hb
  rcases Nat.eq_zero_or_pos ((a + b - 1) / b) with h0 | hp
  · rw [h0]; simpa using ha
  · have hm : b * ((a + b - 1) / b - 1) + b * 1 = b * ((a + b - 1) / b) := by
      rw [← Nat.mul_add]
      congr 1
      omega
    omega

lemma plan_eq (n : Nat) :
    plan n = if n = 1 then (1, 1) else if n ≤ 4 then (2, 2)
      else if n ≤ 9 then (3, 3) else if n ≤ 16 then (4, 4)
      else (csqrt n, cdiv n (csqrt n)) := rfl

lemma plan_pos (n : Nat) (h : 1 ≤ n) : 0 < (plan n).1 ∧ 0 < (plan n).2 := by
  rw [plan_eq]
  split_ifs with h1 h2 h3 h4
  · exact ⟨by decide, by decide⟩
  · exact ⟨by decide, by decide⟩
  · exact ⟨by decide, by decide⟩
  · exact ⟨by decide, by decide⟩
  · have hc : 0 < csqrt n := csqrt_pos n (by omega)
    refine ⟨hc, ?_⟩
    show 0 < cdiv n (csqrt n)
    have hcap := le_mul_cdiv n (csqrt n) hc
    rcases Nat.eq_zero_or_pos (cdiv n (csqrt n)) with h0 | hp
    · rw [h0, Nat.mul_zero] at hcap; omega
    · exact hp

lemma plan_capacity (n : Nat) (h : 1 ≤ n) : n ≤ (plan n).1 * (plan n).2 := by
  rw [plan_eq]
  split_ifs with h1 h2 h3 h4
  · show n ≤ 1 * 1; omega
  · show n ≤ 2 * 2; omega
  · show n ≤ 3 * 3; omega
  · show n ≤ 4 * 4; omega
  · show n ≤ csqrt n * cdiv n (csqrt n)
    exact le_mul_cdiv n (csqrt n) (csqrt_pos n (by omega))

/-! ## The row-major fill loop

Both composers (and the preview) run the same double loop
(src/app.py:226-238 and 171-191):

    idx = 0
    for i in range(r):
        for j in range(c):
            if idx >= num: break
            <cell body using images[idx], i, j>
            idx += 1

The inner `break` leaves the outer loop running; `idx` advances once per
visited cell, whether or not the body's `try` succeeds.  The loop is
embedded generically: `f idx i j` is the list of records the cell body
emits for image `idx` at grid position `(i, j)`. -/

/-- One row of the fill loop: `fuel` is the remaining column count,
`idx` the current image index, `j` the current column.  Returns the
emitted records and the image index after the row. -/
def fillRowG {α : Type*} (f : Nat → Nat → Nat → List α) (num i : Nat) :
    Nat → Nat → Nat → List α × Nat
  | 0, idx, _ => ([], idx)
  | fuel + 1, idx, j =>
    if num ≤ idx then ([], idx)
    else
      let rest := fillRowG f num i fuel (idx + 1) (j + 1)
      (f idx i j ++ rest.1, rest.2)

/-- The outer loop over rows: `fuel` is the remaining row count, `i` the
current row, `idx` the current image index. -/
def fillGridG {α : Type*} (f : Nat → Nat → Nat → List α) (num c : Nat) :
    Nat → Nat → Nat → List α
  | 0, _, _ => []
  | fuel + 1, i, idx =>
    let row := fillRowG f num i c idx 0
    row.1 ++ fillGridG f num c fuel (i + 1) row.2

/-- The whole double loop, starting at row 0, image 0. -/
def runGrid {α : Type*} (f : Nat → Nat → Nat → List α) (num c r : Nat) :
    List α :=
  fillGridG f num c r 0 0

lemma flatMap_congr {α β : Type*} (l : List α) (f g : α → List β)
    (h : ∀ k ∈ l, f k = g k) : l.flatMap f = l.flatMap g := by
  induction l with
  | nil => simp
  | cons a l ih =>
    simp only [List.flatMap_cons]
    rw [h a (by simp), ih fun k hk => h k (by simp [hk])]

lemma fillRowG_eq {α : Type*} (f : Nat → Nat → Nat → List α) (num i : Nat)
    (fuel : Nat) : ∀ idx j,
    fillRowG f num i fuel idx j =
      ((List.range' idx (min (num - idx) fuel)).flatMap
          fun k => f k i (j + (k - idx)),
        idx + min (num - idx) fuel) := by
  induction fuel with
  | zero => intro idx j; simp [fillRowG]
  | succ fuel ih =>
    intro idx j
    by_cases h : num ≤ idx
    · have hm : min (num - idx) (fuel + 1) = 0 := by omega
      simp [fillRowG, h, hm]
    · have hm : min (num - idx) (fuel + 1) = min (num - (idx + 1)) fuel + 1 := by
        omega
      simp only [fillRowG, if_neg h, ih (idx + 1) (j + 1), hm,
        List.range'_succ, List.flatMap_cons, Prod.mk.injEq]
      refine ⟨?_, by omega⟩
      have hj : j + (idx - idx) = j := by omega
      rw [hj]
      congr 1
      apply flatMap_congr
      intro k hk
      have hk' : idx + 1 ≤ k := by
        have := List.mem_range'.mp hk
        omega
      have : j + 1 + (k - (idx + 1)) = j + (k - idx) := by omega
      rw [this]

lemma fillGridG_of_exhausted {α : Type*} (f : Nat → Nat → Nat → List α)
    (num c : Nat) (fuel : Nat) : ∀ i idx, num ≤ idx →
    fillGridG f num c fuel i idx = [] := by
  induction fuel with
  | zero => intro i idx _; rfl
  | succ fuel ih =>
    intro i idx h
    have hm : min (num - idx) c = 0 := by omega
    simp only [fillGridG, fillRowG_eq, hm]
    simp [ih (i + 1) idx h]

lemma row_div_mod {c i k : Nat} (h1 : i * c ≤ k)
    (h2 : k < i * c + c) : k / c = i ∧ k % c = k - i * c := by
  have hq : k / c = i := by
    apply Nat.div_eq_of_lt_le
    · exact h1
    · rw [Nat.succ_mul]; exact h2
  refine ⟨hq, ?_⟩
  have hd := Nat.div_add_mod k c
  rw [hq] at hd
  have : c * i = i * c := Nat.mul_comm c i
  omega

lemma fillGridG_eq {α : Type*} (f : Nat → Nat → Nat → List α) (num c : Nat)
    (hc : 0 < c) (fuel : Nat) : ∀ i,
    fillGridG f num c fuel i (i * c) =
      (List.range' (i * c) (min (num - i * c) (fuel * c))).flatMap
        fun k => f k (k / c) (k % c) := by
  induction fuel with
  | zero => intro i; simp [fillGridG]
  | succ fuel ih =>
    intro i
    simp only [fillGridG, fillRowG_eq]
    by_cases h : num ≤ i * c
    · have hm : min (num - i * c) c = 0 := by omega
      have hm2 : min (num - i * c) ((fuel + 1) * c) = 0 := by omega
      rw [hm, hm2]
      simp [fillGridG_of_exhausted f num c fuel (i + 1) (i * c) h]
    · have hrow : ((List.range' (i * c) (min (num - i * c) c)).flatMap
          fun k => f k i (0 + (k - i * c))) =
          (List.range' (i * c) (min (num - i * c) c)).flatMap
            fun k => f k (k / c) (k % c) := by
        apply flatMap_congr
        intro k hk
        have hk' := List.mem_range'.mp hk
        obtain ⟨d, hd, hkd⟩ := hk'
        have h1 : i * c ≤ k := by omega
        have h2 : k < i * c + c := by omega
        obtain ⟨hdiv, hmod⟩ := row_div_mod h1 h2
        rw [hdiv, hmod]
        congr 1
        omega
      by_cases h2 : c ≤ num - i * c
      · have hm : min (num - i * c) c = c := by omega
        rw [hm] at hrow ⊢
        have hnext : i * c + c = (i + 1) * c := by ring
        rw [hrow, hnext, ih (i + 1)]
        rw [← List.flatMap_append]
        have hlist : List.range' (i * c) c ++
            List.range' ((i + 1) * c) (min (num - (i + 1) * c) (fuel * c)) =
            List.range' (i * c) (min (num - (i + 1) * c) (fuel * c) + c) := by
          have h5 : (i + 1) * c = i * c + 1 * c := by ring
          rw [h5, List.range'_append]
        have hmin : min (num - i * c) ((fuel + 1) * c) =
            min (num - (i + 1) * c) (fuel * c) + c := by
          have e1 : (i + 1) * c = i * c + c := by ring
          have e2 : (fuel + 1) * c = fuel * c + c := by ring
          rw [e1, e2]
          omega
        rw [hlist, hmin]
      · have hm : min (num - i * c) c = num - i * c := by omega
        rw [hm] at hrow ⊢
        have hend : i * c + (num - i * c) = num := by omega
        rw [hrow, hend,
          fillGridG_of_exhausted f num c fuel (i + 1) num (by omega)]
        have hm2 : min (num - i * c) ((fuel + 1) * c) = num - i * c := by
          have : c ≤ (fuel + 1) * c := by
            calc c = 1 * c := by ring
              _ ≤ (fuel + 1) * c := Nat.mul_le_mul_right c (by omega)
          omega
        rw [hm2]
        simp

/-- The double loop visits exactly the first `min num (r*c)` image
indices, and image `k` is handled at grid position `(k / c, k % c)`. -/
lemma runGrid_eq {α : Type*} (f : Nat → Nat → Nat → List α) (num c r : Nat)
    (hc : 0 < c) :
    runGrid f num c r =
      (List.range (min num (r * c))).flatMap fun k => f k (k / c) (k % c) := by
  have h := fillGridG_eq f num c hc r 0
  rw [Nat.zero_mul, Nat.sub_zero] at h
  unfold runGrid
  rw [h, List.range_eq_range']

/-! ## The raster composer `create_png` (src/app.py:198-243)

Each input image is abstracted by whether its per-cell body (decode,
EXIF transpose, resize, border draw) succeeds: `ok idx`.  On success the
cell body pastes at pixel offset `(j*cw, t_h + i*ch)`; on failure the
`except: pass` swallows the error and pastes nothing. -/

/-- A paste executed by `create_png`: the image index, the loop's grid
position `(i, j)` and the pixel offset handed to `canvas.paste`
(src/app.py:236). -/
structure PngPaste where
  idx : Nat
  row : Nat
  col : Nat
  x : Nat
  y : Nat
deriving Repr, DecidableEq

/-- Result of `create_png`: canvas geometry and the executed pastes. -/
structure PngOut where
  c : Nat
  r : Nat
  cw : Nat
  ch : Nat
  t_h : Nat
  pastes : List PngPaste
deriving Repr, DecidableEq

/-- `W, H = 2480, 3508` (src/app.py:201). -/
def pngW : Nat := 2480

def pngH : Nat := 3508

/-- The cell body of `create_png`'s loop (src/app.py:229-238). -/
def pngBody (ok : Nat → Bool) (cw ch t_h : Nat) (idx i j : Nat) :
    List PngPaste :=
  if ok idx then [⟨idx, i, j, j * cw, t_h + i * ch⟩] else []

/-- `create_png(images, title)` with the image list abstracted to its
length `num` and the per-image success predicate `ok`; `title` records
whether the title string is non-empty. -/
def create_png (ok : Nat → Bool) (num : Nat) (title : Bool) :
    Option PngOut :=
  if num = 0 then none
  else
    let t_h := if title then 400 else 0
    let availH := pngH - t_h
    let p := plan num
    let cw := pngW / p.1
    let ch := availH / p.2
    some ⟨p.1, p.2, cw, ch, t_h, runGrid (pngBody ok cw ch t_h) num p.1 p.2⟩

/-! ## The document composer `create_word_doc` (src/app.py:136-196) -/

/-- Outcome flags for the fallible steps of the per-cell `try` block:
`Image.open` + `exif_transpose`, `pil_img.save(tmp)`, and
`add_picture`. -/
structure ImgOutcome where
  decodeOk : Bool
  saveOk : Bool
  insertOk : Bool
deriving Repr, DecidableEq

/-- Observable state of one visited table cell and of the temporary file
used for that cell's image. -/
structure WordCell where
  marginsZeroed : Bool
  vCentered : Bool
  bordered : Bool
  paraCentered : Bool
  embedded : Bool
  tempCreated : Bool
  tempRemoved : Bool
deriving Repr, DecidableEq

/-- A fresh table cell as produced by `doc.add_table`. -/
def freshCell : WordCell := ⟨false, false, false, false, false, false, false⟩

/-- `set_cell_margins(cell, top=0, start=0, bottom=0, end=0)`
(src/app.py:58-67, called at 176). -/
def set_cell_margins (cell : WordCell) : WordCell :=
  { cell with marginsZeroed := true }

/-- `set_cell_vertical_align(cell, "center")` (src/app.py:69-74). -/
def set_cell_vertical_align (cell : WordCell) : WordCell :=
  { cell with vCentered := true }

/-- `set_cell_border(cell)` (src/app.py:76-86). -/
def set_cell_border (cell : WordCell) : WordCell :=
  { cell with bordered := true }

/-- The per-cell step of `create_word_doc` (src/app.py:175-191), in
source order: formatting first, then the `try` block.  Inside the `try`:
a failed decode raises before the temp file exists; the temp file is
created with `delete=False`, so when `save` or `add_picture` raises, the
`except: pass` is reached with `os.remove` never executed and the file
still on disk; only the success path removes it. -/
def wordCellStep (o : ImgOutcome) : WordCell :=
  let cell := set_cell_margins freshCell
  let cell := set_cell_vertical_align cell
  let cell := set_cell_border cell
  let cell := { cell with paraCentered := true }
  if o.decodeOk then
    let cell := { cell with tempCreated := true }
    if o.saveOk then
      if o.insertOk then
        { cell with embedded := true, tempRemoved := true }
      else cell
    else cell
  else cell

/-- One visited cell of the document table. -/
structure WordCellRec where
  idx : Nat
  row : Nat
  col : Nat
  cell : WordCell
deriving Repr, DecidableEq

/-- Result of `create_word_doc`: table geometry (physical sizes in
inches as exact rationals) and the visited cells. -/
structure WordOut where
  c : Nat
  r : Nat
  cellW : ℚ
  cellH : ℚ
  cells : List WordCellRec
deriving Repr, DecidableEq

/-- The cell body of `create_word_doc`'s loop (src/app.py:173-191). -/
def wordBody (oc : Nat → ImgOutcome) (idx i j : Nat) : List WordCellRec :=
  [⟨idx, i, j, wordCellStep (oc idx)⟩]

/-- `create_word_doc(images, title)` with images abstracted to their
count `num` and per-image outcome flags `oc`; `page_w, page_h = 8.0,
11.0`, title offset `0.6` inch (src/app.py:139-165). -/
def create_word_doc (oc : Nat → ImgOutcome) (num : Nat) (title : Bool) :
    Option WordOut :=
  if num = 0 then none
  else
    let h_offset : ℚ := if title then 3 / 5 else 0
    let avail_h : ℚ := 11 - h_offset
    let p := plan num
    some ⟨p.1, p.2, 8 / (p.1 : ℚ), avail_h / (p.2 : ℚ),
      runGrid (wordBody oc) num p.1 p.2⟩

/-! ## Spec-side layout (refinement targets)

`pngSpecLayout` and `wordSpecLayout` state, following the spec's words,
the intended flat row-major layout: image `k` (among the first
`min num (rows*columns)`) sits at grid position `(k / columns,
k % columns)`, pasted at `(col*cell_w, title_band + row*cell_h)` in the
raster path. -/

def pngSpecLayout (num : Nat) (title : Bool) : PngOut :=
  let t_h := if title then 400 else 0
  let c := (plan num).1
  let r := (plan num).2
  let cw := pngW / c
  let ch := (pngH - t_h) / r
  ⟨c, r, cw, ch, t_h,
    (List.range (min num (r * c))).map fun k =>
      ⟨k, k / c, k % c, (k % c) * cw, t_h + (k / c) * ch⟩⟩

def wordSpecLayout (num : Nat) (title : Bool) : WordOut :=
  let c := (plan num).1
  let r := (plan num).2
  let h_offset : ℚ := if title then 3 / 5 else 0
  ⟨c, r, 8 / (c : ℚ), (11 - h_offset) / (r : ℚ),
    (List.range (min num (r * c))).map fun k =>
      ⟨k, k / c, k % c, ⟨true, true, true, true, true, true, true⟩⟩⟩

lemma flatMap_pure {α β : Type*} (l : List α) (g : α → β) :
    (l.flatMap fun x => [g x]) = l.map g := by
  induction l with
  | nil => rfl
  | cons a l ih => simp only [List.flatMap_cons, List.map_cons, ih]; rfl

lemma flatMap_guard {α : Type*} (l : List Nat) (p : Nat → Bool)
    (g : Nat → α) :
    (l.flatMap fun k => if p k then [g k] else []) = (l.filter p).map g := by
  induction l with
  | nil => rfl
  | cons a l ih =>
    by_cases h : p a <;> simp [h, ih]

/-- What `create_png` computes, for any per-image success pattern: the
grid plan, the floor-divided cell sizes, and one paste per surviving
image index `k < min num (rows*cols)` at grid `(k / c, k % c)`, pixel
`((k % c)*cw, t_h + (k / c)*ch)`. -/
lemma create_png_eq (ok : Nat → Bool) (num : Nat) (title : Bool)
    (h : 1 ≤ num) :
    create_png ok num title =
      some { pngSpecLayout num title with
        pastes :=
          ((List.range (min num ((plan num).2 * (plan num).1))).filter
              ok).map fun k =>
            ⟨k, k / (plan num).1, k % (plan num).1,
              (k % (plan num).1) * (pngW / (plan num).1),
              (if title then 400 else 0) +
                (k / (plan num).1) *
                  ((pngH - (if title then 400 else 0)) / (plan num).2)⟩ } := by
  obtain ⟨hc, hr⟩ := plan_pos num h
  unfold create_png pngSpecLayout
  rw [if_neg (by omega)]
  simp only [Option.some.injEq]
  rw [runGrid_eq _ _ _ _ hc]
  unfold pngBody
  rw [flatMap_guard]

/-- What `create_word_doc` computes, for any per-image outcome pattern:
one visited cell per index `k < min num (rows*cols)` at grid
`(k / c, k % c)`, holding the state `wordCellStep (oc k)`. -/
lemma create_word_doc_eq (oc : Nat → ImgOutcome) (num : Nat) (title : Bool)
    (h : 1 ≤ num) :
    create_word_doc oc num title =
      some { wordSpecLayout num title with
        cells :=
          (List.range (min num ((plan num).2 * (plan num).1))).map fun k =>
            ⟨k, k / (plan num).1, k % (plan num).1, wordCellStep (oc k)⟩ } := by
  obtain ⟨hc, hr⟩ := plan_pos num h
  unfold create_word_doc wordSpecLayout
  rw [if_neg (by omega)]
  simp only [Option.some.injEq]
  rw [runGrid_eq _ _ _ _ hc]
  unfold wordBody
  rw [flatMap_pure]

/-! ## Concrete planner values -/

lemma sqrt_eval (n a : Nat) (h1 : a * a ≤ n) (h2 : n < (a + 1) * (a + 1)) :
    Nat.sqrt n = a := by
  have hl : a ≤ Nat.sqrt n := Nat.le_sqrt.mpr h1
  have hu : Nat.sqrt n < a + 1 := Nat.sqrt_lt.mpr h2
  omega

lemma csqrt_17 : csqrt 17 = 5 := by
  have hs : Nat.sqrt 17 = 4 := sqrt_eval 17 4 (by omega) (by omega)
  unfold csqrt
  rw [hs]
  norm_num

lemma plan_17 : plan 17 = (5, 4) := by
  rw [plan_eq]
  norm_num [csqrt_17]
  unfold cdiv
  norm_num

lemma csqrt_25 : csqrt 25 = 5 := by
  have hs : Nat.sqrt 25 = 5 := sqrt_eval 25 5 (by omega) (by omega)
  unfold csqrt
  rw [hs]
  norm_num

lemma plan_25 : plan 25 = (5, 5) := by
  rw [plan_eq]
  norm_num [csqrt_25]
  unfold cdiv
  norm_num

/-! ## Claims -/

/-- C1 (counterexample): the claimed test-vector entry `plan(17) = (5,5)`
is false on the code: `ceil(17/5) = 4`, so `plan 17 = (5, 4)`. -/
theorem collage_c1_counterexample : plan 17 ≠ (5, 5) := by
  rw [plan_17]
  decide

/-- C1 (amended): for every image count `n ≥ 1`, the planner returns the
documented pairs: `(1,1)`, `(2,2)`, `(3,3)`, `(4,4)` on the small
ranges, and for `n > 16` the columns are `ceil(sqrt n)` (the least `c`
with `c*c ≥ n`) and the rows `ceil(n / columns)` (the least `r` with
`columns*r ≥ n`); in particular `plan 17 = (5,4)` (not `(5,5)`) and
`plan 25 = (5,5)`. -/
theorem collage_c1_amended (n : Nat) (h : 1 ≤ n) :
    (n = 1 → plan n = (1, 1)) ∧
    (2 ≤ n → n ≤ 4 → plan n = (2, 2)) ∧
    (5 ≤ n → n ≤ 9 → plan n = (3, 3)) ∧
    (10 ≤ n → n ≤ 16 → plan n = (4, 4)) ∧
    (16 < n →
      n ≤ (plan n).1 * (plan n).1 ∧
      ((plan n).1 - 1) * ((plan n).1 - 1) < n ∧
      n ≤ (plan n).1 * (plan n).2 ∧
      (plan n).1 * ((plan n).2 - 1) < n) ∧
    plan 17 = (5, 4) ∧ plan 25 = (5, 5) := by
  refine ⟨?_, ?_, ?_, ?_, ?_, plan_17, plan_25⟩
  · intro h1
    rw [plan_eq, if_pos h1]
  · intro h1 h2
    rw [plan_eq, if_neg (by omega), if_pos h2]
  · intro h1 h2
    rw [plan_eq, if_neg (by omega), if_neg (by omega), if_pos h2]
  · intro h1 h2
    rw [plan_eq, if_neg (by omega), if_neg (by omega), if_neg (by omega),
      if_pos h2]
  · intro h16
    have hg : plan n = (csqrt n, cdiv n (csqrt n)) := by
      rw [plan_eq, if_neg (by omega), if_neg (by omega), if_neg (by omega),
        if_neg (by omega)]
    rw [hg]
    have hc : 0 < csqrt n := csqrt_pos n (by omega)
    exact ⟨le_csqrt_sq n, csqrt_pred_sq_lt n (by omega),
      le_mul_cdiv n (csqrt n) hc, mul_cdiv_pred_lt n (csqrt n) (by omega) hc⟩

theorem collage_c1_witness :
    (1 ≤ 17) ∧
    ((17 = 1 → plan 17 = (1, 1)) ∧
      (2 ≤ 17 → 17 ≤ 4 → plan 17 = (2, 2)) ∧
      (5 ≤ 17 → 17 ≤ 9 → plan 17 = (3, 3)) ∧
      (10 ≤ 17 → 17 ≤ 16 → plan 17 = (4, 4)) ∧
      (16 < 17 →
        17 ≤ (plan 17).1 * (plan 17).1 ∧
        ((plan 17).1 - 1) * ((plan 17).1 - 1) < 17 ∧
        17 ≤ (plan 17).1 * (plan 17).2 ∧
        (plan 17).1 * ((plan 17).2 - 1) < 17) ∧
      plan 17 = (5, 4) ∧ plan 25 = (5, 5)) :=
  ⟨by omega, collage_c1_amended 17 (by omega)⟩

/-- C2: for every image count `n ≥ 1`, the grid has capacity for all
images: `columns * rows ≥ n`. -/
theorem collage_c2 (n : Nat) (h : 1 ≤ n) :
    n ≤ (plan n).1 * (plan n).2 :=
  plan_capacity n h

theorem collage_c2_witness : (1 ≤ 9) ∧ 9 ≤ (plan 9).1 * (plan 9).2 :=
  ⟨by omega, collage_c2 9 (by omega)⟩

/-- C5: for the empty image list both composers return `none` rather
than an error, for every per-image behaviour and title. -/
theorem collage_c5 (ok : Nat → Bool) (oc : Nat → ImgOutcome)
    (t1 t2 : Bool) :
    create_png ok 0 t1 = none ∧ create_word_doc oc 0 t2 = none :=
  ⟨rfl, rfl⟩

/-- C6: the claim says the per-image temporary file is deleted on every
exit path of the embed step.  The code violates this: when
`pil_img.save` or `add_picture` raises, `except: pass` is reached before
`os.remove(tmp_name)` and the `delete=False` temporary file stays on
disk.  Only the fully successful path removes it. -/
theorem collage_c6 :
    (wordCellStep ⟨true, true, false⟩).tempCreated = true ∧
    (wordCellStep ⟨true, true, false⟩).tempRemoved = false ∧
    (wordCellStep ⟨true, false, true⟩).tempCreated = true ∧
    (wordCellStep ⟨true, false, true⟩).tempRemoved = false ∧
    (wordCellStep ⟨true, true, true⟩).tempCreated = true ∧
    (wordCellStep ⟨true, true, true⟩).tempRemoved = true := by
  decide

/-- Filename f-strings of the download buttons (src/app.py:288, 295):
`f"{title_input}.docx"` and `f"{title_input}.png"`. -/
def download_name (title ext : String) : String := title ++ "." ++ ext

/-- C8 (counterexample): with a blank title the suggested filename is
the bare extension, not the claimed `"Collage"` fallback. -/
theorem collage_c8_counterexample :
    download_name "" "png" = ".png" ∧ download_name "" "docx" = ".docx" ∧
    download_name "" "png" ≠ "Collage.png" ∧
    download_name "" "docx" ≠ "Collage.docx" := by
  refine ⟨by decide, by decide, by decide, by decide⟩

/-- C8 (amended): the suggested filename is exactly the title followed
by the format extension; a blank title yields just `".png"` /
`".docx"` — there is no `"Collage"` fallback in the code. -/
theorem collage_c8_amended (t : String) :
    download_name t "png" = t ++ ".png" ∧
    download_name t "docx" = t ++ ".docx" ∧
    download_name "" "png" = ".png" ∧ download_name "" "docx" = ".docx" := by
  refine ⟨?_, ?_, by decide, by decide⟩
  · unfold download_name
    rw [String.append_assoc]
    rfl
  · unfold download_name
    rw [String.append_assoc]
    rfl

theorem collage_c8_witness :
    download_name "My Collage" "png" = "My Collage" ++ ".png" ∧
    download_name "My Collage" "docx" = "My Collage" ++ ".docx" ∧
    download_name "" "png" = ".png" ∧ download_name "" "docx" = ".docx" :=
  collage_c8_amended "My Collage"

/-- C3: with `n` valid images both composers fill the grid row-major in
input order: the artifacts are exactly the spec-side layouts, in which
image `k` occupies grid position `(k / columns, k % columns)` and the
raster paste lands at pixel `((k % columns) * cell_w, title_band +
(k / columns) * cell_h)`. -/
theorem collage_c3 (n : Nat) (title : Bool) (h : 1 ≤ n) :
    create_png (fun _ => true) n title = some (pngSpecLayout n title) ∧
    create_word_doc (fun _ => ⟨true, true, true⟩) n title =
      some (wordSpecLayout n title) := by
  refine ⟨?_, ?_⟩
  · rw [create_png_eq _ _ _ h, List.filter_true]
    rfl
  · rw [create_word_doc_eq _ _ _ h]
    rfl

theorem collage_c3_witness :
    (1 ≤ 5) ∧
    (create_png (fun _ => true) 5 false = some (pngSpecLayout 5 false) ∧
      create_word_doc (fun _ => ⟨true, true, true⟩) 5 false =
        some (wordSpecLayout 5 false)) :=
  ⟨by omega, collage_c3 5 false (by omega)⟩

/-- C4: with one undecodable image `bad` among `n`, each composer still
returns a complete artifact with the same grid geometry; exactly the
failed image's cell is blank (no raster paste, word cell formatted but
not embedded) and every other image keeps its row-major position. -/
theorem collage_c4 (n bad : Nat) (title : Bool) (h : 1 ≤ n)
    (hb : bad < n) :
    ∃ pout wout,
      create_png (fun k => k != bad) n title = some pout ∧
      create_word_doc
          (fun k => if k = bad then ⟨false, true, true⟩
            else ⟨true, true, true⟩) n title = some wout ∧
      pout.c = (plan n).1 ∧ pout.r = (plan n).2 ∧
      wout.c = (plan n).1 ∧ wout.r = (plan n).2 ∧
      (∀ p ∈ pout.pastes, p.idx ≠ bad) ∧
      (∀ k, k < min n (pout.r * pout.c) → k ≠ bad →
        (⟨k, k / pout.c, k % pout.c, (k % pout.c) * pout.cw,
          pout.t_h + (k / pout.c) * pout.ch⟩ : PngPaste) ∈ pout.pastes) ∧
      (∀ rec ∈ wout.cells, rec.idx = bad →
        rec.cell.embedded = false ∧ rec.cell.bordered = true) ∧
      (∀ k, k < min n (wout.r * wout.c) → k ≠ bad →
        (⟨k, k / wout.c, k % wout.c,
          ⟨true, true, true, true, true, true, true⟩⟩ : WordCellRec) ∈
          wout.cells) ∧
      (⟨bad, bad / wout.c, bad % wout.c,
        ⟨true, true, true, true, false, false, false⟩⟩ : WordCellRec) ∈
        wout.cells := by
  refine ⟨_, _, create_png_eq _ n title h, create_word_doc_eq _ n title h,
    rfl, rfl, rfl, rfl, ?_, ?_, ?_, ?_, ?_⟩
  · intro p hp
    obtain ⟨k, hk, rfl⟩ := List.mem_map.mp hp
    have hkb := (List.mem_filter.mp hk).2
    have : k ≠ bad := bne_iff_ne.mp hkb
    exact this
  · intro k hk hkb
    refine List.mem_map.mpr ⟨k, List.mem_filter.mpr ⟨List.mem_range.mpr hk, ?_⟩, rfl⟩
    exact bne_iff_ne.mpr hkb
  · intro rec hrec hidx
    obtain ⟨k, hk, rfl⟩ := List.mem_map.mp hrec
    have hkb : k = bad := hidx
    show (wordCellStep (if k = bad then ⟨false, true, true⟩
      else ⟨true, true, true⟩)).embedded = false ∧
      (wordCellStep (if k = bad then ⟨false, true, true⟩
        else ⟨true, true, true⟩)).bordered = true
    rw [if_pos hkb]
    exact ⟨rfl, rfl⟩
  · intro k hk hkb
    refine List.mem_map.mpr ⟨k, List.mem_range.mpr hk, ?_⟩
    show (⟨k, k / (plan n).1, k % (plan n).1,
      wordCellStep (if k = bad then ⟨false, true, true⟩
        else ⟨true, true, true⟩)⟩ : WordCellRec) = _
    rw [if_neg hkb]
    rfl
  · have hcap := plan_capacity n h
    have hbad : bad < min n ((plan n).2 * (plan n).1) := by
      have hcm : (plan n).1 * (plan n).2 = (plan n).2 * (plan n).1 :=
        Nat.mul_comm _ _
      omega
    refine List.mem_map.mpr ⟨bad, List.mem_range.mpr hbad, ?_⟩
    show (⟨bad, bad / (plan n).1, bad % (plan n).1,
      wordCellStep (if bad = bad then ⟨false, true, true⟩
        else ⟨true, true, true⟩)⟩ : WordCellRec) = _
    rw [if_pos rfl]
    rfl

theorem collage_c4_witness :
    (1 ≤ 5) ∧ (2 < 5) ∧
    (∃ pout wout,
      create_png (fun k => k != 2) 5 false = some pout ∧
      create_word_doc
          (fun k => if k = 2 then ⟨false, true, true⟩
            else ⟨true, true, true⟩) 5 false = some wout ∧
      pout.c = (plan 5).1 ∧ pout.r = (plan 5).2 ∧
      wout.c = (plan 5).1 ∧ wout.r = (plan 5).2 ∧
      (∀ p ∈ pout.pastes, p.idx ≠ 2) ∧
      (∀ k, k < min 5 (pout.r * pout.c) → k ≠ 2 →
        (⟨k, k / pout.c, k % pout.c, (k % pout.c) * pout.cw,
          pout.t_h + (k / pout.c) * pout.ch⟩ : PngPaste) ∈ pout.pastes) ∧
      (∀ rec ∈ wout.cells, rec.idx = 2 →
        rec.cell.embedded = false ∧ rec.cell.bordered = true) ∧
      (∀ k, k < min 5 (wout.r * wout.c) → k ≠ 2 →
        (⟨k, k / wout.c, k % wout.c,
          ⟨true, true, true, true, true, true, true⟩⟩ : WordCellRec) ∈
          wout.cells) ∧
      (⟨2, 2 / wout.c, 2 % wout.c,
        ⟨true, true, true, true, false, false, false⟩⟩ : WordCellRec) ∈
        wout.cells) :=
  ⟨by omega, by omega, collage_c4 5 2 false (by omega) (by omega)⟩

lemma wordCellStep_fields (o : ImgOutcome) :
    (wordCellStep o).marginsZeroed = true ∧
    (wordCellStep o).vCentered = true ∧
    (wordCellStep o).bordered = true ∧
    (wordCellStep o).paraCentered = true ∧
    (wordCellStep o).embedded = (o.decodeOk && o.saveOk && o.insertOk) := by
  rcases o with ⟨d, s, i⟩
  cases d <;> cases s <;> cases i <;> decide

/-- C10: every visited cell of the document table receives its
formatting (zeroed margins, vertical centering, border, centered
paragraph) before the embedding is attempted, so it is formatted even
when the embed fails; the image lands in the cell exactly when decode,
temp-file save and insertion all succeed. -/
theorem collage_c10 (oc : Nat → ImgOutcome) (n : Nat) (title : Bool)
    (h : 1 ≤ n) (wout : WordOut)
    (hout : create_word_doc oc n title = some wout)
    (k : Nat) (hk : k < min n (wout.r * wout.c)) :
    (⟨k, k / wout.c, k % wout.c, wordCellStep (oc k)⟩ : WordCellRec) ∈
      wout.cells ∧
    (wordCellStep (oc k)).marginsZeroed = true ∧
    (wordCellStep (oc k)).vCentered = true ∧
    (wordCellStep (oc k)).bordered = true ∧
    (wordCellStep (oc k)).paraCentered = true ∧
    (wordCellStep (oc k)).embedded =
      ((oc k).decodeOk && (oc k).saveOk && (oc k).insertOk) := by
  rw [create_word_doc_eq oc n title h] at hout
  have hw := Option.some.inj hout
  subst hw
  obtain ⟨h1, h2, h3, h4, h5⟩ := wordCellStep_fields (oc k)
  refine ⟨?_, h1, h2, h3, h4, h5⟩
  exact List.mem_map.mpr ⟨k, List.mem_range.mpr hk, rfl⟩

theorem collage_c10_witness :
    (1 ≤ 2) ∧
    (create_word_doc (fun _ => ⟨false, false, false⟩) 2 false =
      some { wordSpecLayout 2 false with
        cells :=
          (List.range (min 2 ((plan 2).2 * (plan 2).1))).map fun k =>
            ⟨k, k / (plan 2).1, k % (plan 2).1,
              wordCellStep ((fun _ => (⟨false, false, false⟩ : ImgOutcome))
                k)⟩ }) ∧
    ((⟨1, 0, 1, ⟨true, true, true, true, false, false, false⟩⟩ :
        WordCellRec) ∈
      ({ wordSpecLayout 2 false with
        cells :=
          (List.range (min 2 ((plan 2).2 * (plan 2).1))).map fun k =>
            ⟨k, k / (plan 2).1, k % (plan 2).1,
              wordCellStep ((fun _ => (⟨false, false, false⟩ : ImgOutcome))
                k)⟩ } : WordOut).cells ∧
      (wordCellStep (⟨false, false, false⟩ : ImgOutcome)).marginsZeroed =
        true ∧
      (wordCellStep (⟨false, false, false⟩ : ImgOutcome)).vCentered = true ∧
      (wordCellStep (⟨false, false, false⟩ : ImgOutcome)).bordered = true ∧
      (wordCellStep (⟨false, false, false⟩ : ImgOutcome)).paraCentered =
        true ∧
      (wordCellStep (⟨false, false, false⟩ : ImgOutcome)).embedded =
        (false && false && false)) :=
  ⟨by omega, create_word_doc_eq _ 2 false (by omega),
    collage_c10 _ 2 false (by omega) _
      (create_word_doc_eq _ 2 false (by omega)) 1 (by decide)⟩

/-! ## Canvas coverage for the raster composer -/

/-- Whether pixel `(x, y)` of the canvas is written by some paste: each
paste overwrites the rectangle of width `cw`, height `ch` at its
offset.  Unwritten pixels keep the white background of
`Image.new('RGB', (W, H), 'white')` (src/app.py:204). -/
def pngCovered (out : PngOut) (x y : Nat) : Bool :=
  out.pastes.any fun p =>
    decide (p.x ≤ x ∧ x < p.x + out.cw ∧ p.y ≤ y ∧ y < p.y + out.ch)

lemma cell_sep {w a b x : Nat} (hab : a ≠ b) (h1 : a * w ≤ x)
    (h2 : x < a * w + w) (h3 : b * w ≤ x) (h4 : x < b * w + w) : False := by
  rcases Nat.lt_or_ge a b with hlt | hge
  · have h5 : (a + 1) * w ≤ b * w := Nat.mul_le_mul_right w (by omega)
    have h6 : a * w + w = (a + 1) * w := by ring
    omega
  · have hgt : b < a := by omega
    have h5 : (b + 1) * w ≤ a * w := Nat.mul_le_mul_right w (by omega)
    have h6 : b * w + w = (b + 1) * w := by ring
    omega

/-- C7: trailing cells beyond the image count are never written, in both
composers: every raster paste and every visited document cell belongs to
an image index below `n` and never targets an idle grid cell `(i, j)`
with `i*columns + j ≥ n`; every pixel of an idle raster cell's rectangle
stays uncovered (background); and once the image index reaches `n`, the
remaining outer-loop rows of either composer run but emit nothing (the
inner `break` does not leave the outer loop). -/
theorem collage_c7 (ok : Nat → Bool) (oc : Nat → ImgOutcome) (n : Nat)
    (title : Bool) (h : 1 ≤ n)
    (out : PngOut) (hout : create_png ok n title = some out)
    (wout : WordOut) (hwout : create_word_doc oc n title = some wout)
    (i j : Nat) (hi : i < out.r) (hj : j < out.c)
    (hidle : n ≤ i * out.c + j) :
    (∀ p ∈ out.pastes, p.idx < n ∧ ¬(p.row = i ∧ p.col = j)) ∧
    (∀ x y, j * out.cw ≤ x → x < j * out.cw + out.cw →
      out.t_h + i * out.ch ≤ y → y < out.t_h + i * out.ch + out.ch →
      pngCovered out x y = false) ∧
    (∀ fuel i0 idx, n ≤ idx →
      fillGridG (pngBody ok out.cw out.ch out.t_h) n out.c fuel i0 idx =
        []) ∧
    (∀ rec ∈ wout.cells, rec.idx < n ∧ ¬(rec.row = i ∧ rec.col = j)) ∧
    (∀ fuel i0 idx, n ≤ idx →
      fillGridG (wordBody oc) n wout.c fuel i0 idx = []) := by
  obtain ⟨hc, hr⟩ := plan_pos n h
  rw [create_png_eq ok n title h] at hout
  have hw := Option.some.inj hout
  subst hw
  rw [create_word_doc_eq oc n title h] at hwout
  have hww := Option.some.inj hwout
  subst hww
  have hj' : j < (plan n).1 := hj
  have hidle' : n ≤ i * (plan n).1 + j := hidle
  refine ⟨?_, ?_, ?_, ?_, ?_⟩
  · intro p hp
    obtain ⟨k, hk, rfl⟩ := List.mem_map.mp hp
    have hkr := List.mem_range.mp (List.mem_filter.mp hk).1
    have hkn : k < n := by omega
    refine ⟨hkn, ?_⟩
    rintro ⟨hrow, hcol⟩
    have hrow' : k / (plan n).1 = i := hrow
    have hcol' : k % (plan n).1 = j := hcol
    have hdm := Nat.div_add_mod k (plan n).1
    rw [hrow', hcol'] at hdm
    have hcm : (plan n).1 * i = i * (plan n).1 := Nat.mul_comm _ _
    omega
  · intro x y hx1 hx2 hy1 hy2
    have hx1' : j * (pngW / (plan n).1) ≤ x := hx1
    have hx2' : x < j * (pngW / (plan n).1) + pngW / (plan n).1 := hx2
    have hy1' : (if title then 400 else 0) +
        i * ((pngH - (if title then 400 else 0)) / (plan n).2) ≤ y := hy1
    have hy2' : y < (if title then 400 else 0) +
        i * ((pngH - (if title then 400 else 0)) / (plan n).2) +
        (pngH - (if title then 400 else 0)) / (plan n).2 := hy2
    unfold pngCovered
    rw [List.any_eq_false]
    intro p hp
    obtain ⟨k, hk, rfl⟩ := List.mem_map.mp hp
    simp only [decide_eq_true_eq]
    rintro ⟨c1, c2, c3, c4⟩
    have c1' : (k % (plan n).1) * (pngW / (plan n).1) ≤ x := c1
    have c2' : x < (k % (plan n).1) * (pngW / (plan n).1) +
        pngW / (plan n).1 := c2
    have c3' : (if title then 400 else 0) +
        (k / (plan n).1) * ((pngH - (if title then 400 else 0)) /
          (plan n).2) ≤ y := c3
    have c4' : y < (if title then 400 else 0) +
        (k / (plan n).1) * ((pngH - (if title then 400 else 0)) /
          (plan n).2) +
        (pngH - (if title then 400 else 0)) / (plan n).2 := c4
    have hkr := List.mem_range.mp (List.mem_filter.mp hk).1
    have hkn : k < n := by omega
    have hcol : k % (plan n).1 = j := by
      by_contra hne
      exact cell_sep hne c1' c2' hx1' hx2'
    have hrow : k / (plan n).1 = i := by
      by_contra hne
      refine cell_sep hne
        (show (k / (plan n).1) *
          ((pngH - (if title then 400 else 0)) / (plan n).2) ≤
          y - (if title then 400 else 0) by omega)
        (by omega) (by omega) (by omega)
    have hdm := Nat.div_add_mod k (plan n).1
    rw [hrow, hcol] at hdm
    have hcm : (plan n).1 * i = i * (plan n).1 := Nat.mul_comm _ _
    omega
  · intro fuel i0 idx hidx
    exact fillGridG_of_exhausted _ n _ fuel i0 idx hidx
  · intro rec hrec
    obtain ⟨k, hk, rfl⟩ := List.mem_map.mp hrec
    have hkr := List.mem_range.mp hk
    have hkn : k < n := by omega
    refine ⟨hkn, ?_⟩
    rintro ⟨hrow, hcol⟩
    have hrow' : k / (plan n).1 = i := hrow
    have hcol' : k % (plan n).1 = j := hcol
    have hdm := Nat.div_add_mod k (plan n).1
    rw [hrow', hcol'] at hdm
    have hcm : (plan n).1 * i = i * (plan n).1 := Nat.mul_comm _ _
    omega
  · intro fuel i0 idx hidx
    exact fillGridG_of_exhausted _ n _ fuel i0 idx hidx

theorem collage_c7_witness :
    (1 ≤ 5) ∧
    (create_png (fun _ => true) 5 false = some (pngSpecLayout 5 false)) ∧
    (create_word_doc (fun _ => ⟨true, true, true⟩) 5 false =
      some { wordSpecLayout 5 false with
        cells :=
          (List.range (min 5 ((plan 5).2 * (plan 5).1))).map fun k =>
            ⟨k, k / (plan 5).1, k % (plan 5).1,
              wordCellStep ((fun _ => (⟨true, true, true⟩ : ImgOutcome))
                k)⟩ }) ∧
    (2 < (pngSpecLayout 5 false).r) ∧ (2 < (pngSpecLayout 5 false).c) ∧
    (5 ≤ 2 * (pngSpecLayout 5 false).c + 2) ∧
    ((∀ p ∈ (pngSpecLayout 5 false).pastes,
        p.idx < 5 ∧ ¬(p.row = 2 ∧ p.col = 2)) ∧
      (∀ x y, 2 * (pngSpecLayout 5 false).cw ≤ x →
        x < 2 * (pngSpecLayout 5 false).cw + (pngSpecLayout 5 false).cw →
        (pngSpecLayout 5 false).t_h + 2 * (pngSpecLayout 5 false).ch ≤ y →
        y < (pngSpecLayout 5 false).t_h +
          2 * (pngSpecLayout 5 false).ch + (pngSpecLayout 5 false).ch →
        pngCovered (pngSpecLayout 5 false) x y = false) ∧
      (∀ fuel i0 idx, 5 ≤ idx →
        fillGridG
          (pngBody (fun _ => true) (pngSpecLayout 5 false).cw
            (pngSpecLayout 5 false).ch (pngSpecLayout 5 false).t_h)
          5 (pngSpecLayout 5 false).c fuel i0 idx = []) ∧
      (∀ rec ∈ ({ wordSpecLayout 5 false with
          cells :=
            (List.range (min 5 ((plan 5).2 * (plan 5).1))).map fun k =>
              ⟨k, k / (plan 5).1, k % (plan 5).1,
                wordCellStep ((fun _ => (⟨true, true, true⟩ : ImgOutcome))
                  k)⟩ } : WordOut).cells,
        rec.idx < 5 ∧ ¬(rec.row = 2 ∧ rec.col = 2)) ∧
      (∀ fuel i0 idx, 5 ≤ idx →
        fillGridG (wordBody (fun _ => ⟨true, true, true⟩)) 5
          ({ wordSpecLayout 5 false with
            cells :=
              (List.range (min 5 ((plan 5).2 * (plan 5).1))).map fun k =>
                ⟨k, k / (plan 5).1, k % (plan 5).1,
                  wordCellStep ((fun _ =>
                    (⟨true, true, true⟩ : ImgOutcome)) k)⟩ } :
            WordOut).c fuel i0 idx = [])) :=
  ⟨by omega, by decide, create_word_doc_eq _ 5 false (by omega),
    by decide, by decide, by decide,
    collage_c7 (fun _ => true) (fun _ => ⟨true, true, true⟩) 5 false
      (by omega) (pngSpecLayout 5 false) (by decide) _
      (create_word_doc_eq _ 5 false (by omega)) 2 2 (by decide) (by decide)
      (by decide)⟩

/-- C9: every paste lies entirely inside the 2480x3508 canvas: cell
sizes are the floor divisions `W // columns` and
`(H - title_band) // rows`, so each pasted rectangle ends at or before
the canvas edges, and the right/bottom strips left over by the flooring
are never covered by any paste. -/
theorem collage_c9 (ok : Nat → Bool) (n : Nat) (title : Bool) (h : 1 ≤ n)
    (out : PngOut) (hout : create_png ok n title = some out) :
    (∀ p ∈ out.pastes, p.x + out.cw ≤ pngW ∧ p.y + out.ch ≤ pngH) ∧
    out.c * out.cw ≤ pngW ∧
    out.t_h + out.r * out.ch ≤ pngH ∧
    (∀ x y, out.c * out.cw ≤ x → pngCovered out x y = false) ∧
    (∀ x y, out.t_h + out.r * out.ch ≤ y →
      pngCovered out x y = false) := by
  obtain ⟨hc, hr⟩ := plan_pos n h
  rw [create_png_eq ok n title h] at hout
  have hw := Option.some.inj hout
  subst hw
  have hW : (plan n).1 * (pngW / (plan n).1) ≤ pngW := by
    have h1 := Nat.div_mul_le_self pngW (plan n).1
    have h2 : (plan n).1 * (pngW / (plan n).1) =
        (pngW / (plan n).1) * (plan n).1 := Nat.mul_comm _ _
    omega
  have hT : (if title then 400 else 0 : Nat) ≤ pngH := by
    cases title <;> norm_num [pngH]
  have hH : (if title then 400 else 0 : Nat) +
      (plan n).2 * ((pngH - (if title then 400 else 0)) / (plan n).2) ≤
      pngH := by
    have h1 := Nat.div_mul_le_self (pngH - (if title then 400 else 0))
      (plan n).2
    have h2 : (plan n).2 * ((pngH - (if title then 400 else 0)) /
        (plan n).2) =
        ((pngH - (if title then 400 else 0)) / (plan n).2) * (plan n).2 :=
      Nat.mul_comm _ _
    omega
  refine ⟨?_, hW, hH, ?_, ?_⟩
  · intro p hp
    obtain ⟨k, hk, rfl⟩ := List.mem_map.mp hp
    have hkr := List.mem_range.mp (List.mem_filter.mp hk).1
    have hklt : k < (plan n).2 * (plan n).1 := by omega
    have hdiv : k / (plan n).1 < (plan n).2 :=
      (Nat.div_lt_iff_lt_mul hc).mpr hklt
    have hmod : k % (plan n).1 < (plan n).1 := Nat.mod_lt _ hc
    constructor
    · show (k % (plan n).1) * (pngW / (plan n).1) + pngW / (plan n).1 ≤
        pngW
      have e : (k % (plan n).1) * (pngW / (plan n).1) +
          pngW / (plan n).1 =
          (k % (plan n).1 + 1) * (pngW / (plan n).1) := by ring
      have hle : (k % (plan n).1 + 1) * (pngW / (plan n).1) ≤
          (plan n).1 * (pngW / (plan n).1) :=
        Nat.mul_le_mul_right _ (by omega)
      omega
    · show (if title then 400 else 0) +
        (k / (plan n).1) * ((pngH - (if title then 400 else 0)) /
          (plan n).2) +
        (pngH - (if title then 400 else 0)) / (plan n).2 ≤ pngH
      have e : (k / (plan n).1) * ((pngH - (if title then 400 else 0)) /
            (plan n).2) +
          (pngH - (if title then 400 else 0)) / (plan n).2 =
          (k / (plan n).1 + 1) * ((pngH - (if title then 400 else 0)) /
            (plan n).2) := by ring
      have hle : (k / (plan n).1 + 1) *
          ((pngH - (if title then 400 else 0)) / (plan n).2) ≤
          (plan n).2 * ((pngH - (if title then 400 else 0)) / (plan n).2) :=
        Nat.mul_le_mul_right _ (by omega)
      omega
  · intro x y hx
    have hx' : (plan n).1 * (pngW / (plan n).1) ≤ x := hx
    unfold pngCovered
    rw [List.any_eq_false]
    intro p hp
    obtain ⟨k, hk, rfl⟩ := List.mem_map.mp hp
    simp only [decide_eq_true_eq]
    rintro ⟨c1, c2, c3, c4⟩
    have c2' : x < (k % (plan n).1) * (pngW / (plan n).1) +
        pngW / (plan n).1 := c2
    have hmod : k % (plan n).1 < (plan n).1 := Nat.mod_lt _ hc
    have e : (k % (plan n).1) * (pngW / (plan n).1) + pngW / (plan n).1 =
        (k % (plan n).1 + 1) * (pngW / (plan n).1) := by ring
    have hle : (k % (plan n).1 + 1) * (pngW / (plan n).1) ≤
        (plan n).1 * (pngW / (plan n).1) :=
      Nat.mul_le_mul_right _ (by omega)
    omega
  · intro x y hy
    have hy' : (if title then 400 else 0) +
        (plan n).2 * ((pngH - (if title then 400 else 0)) / (plan n).2) ≤
        y := hy
    unfold pngCovered
    rw [List.any_eq_false]
    intro p hp
    obtain ⟨k, hk, rfl⟩ := List.mem_map.mp hp
    simp only [decide_eq_true_eq]
    rintro ⟨c1, c2, c3, c4⟩
    have c4' : y < (if title then 400 else 0) +
        (k / (plan n).1) * ((pngH - (if title then 400 else 0)) /
          (plan n).2) +
        (pngH - (if title then 400 else 0)) / (plan n).2 := c4
    have hkr := List.mem_range.mp (List.mem_filter.mp hk).1
    have hklt : k < (plan n).2 * (plan n).1 := by omega
    have hdiv : k / (plan n).1 < (plan n).2 :=
      (Nat.div_lt_iff_lt_mul hc).mpr hklt
    have e : (k / (plan n).1) * ((pngH - (if title then 400 else 0)) /
          (plan n).2) +
        (pngH - (if title then 400 else 0)) / (plan n).2 =
        (k / (plan n).1 + 1) * ((pngH - (if title then 400 else 0)) /
          (plan n).2) := by ring
    have hle : (k / (plan n).1 + 1) *
        ((pngH - (if title then 400 else 0)) / (plan n).2) ≤
        (plan n).2 * ((pngH - (if title then 400 else 0)) / (plan n).2) :=
      Nat.mul_le_mul_right _ (by omega)
    omega

theorem collage_c9_witness :
    (1 ≤ 5) ∧
    (create_png (fun _ => true) 5 true = some (pngSpecLayout 5 true)) ∧
    ((∀ p ∈ (pngSpecLayout 5 true).pastes,
        p.x + (pngSpecLayout 5 true).cw ≤ pngW ∧
        p.y + (pngSpecLayout 5 true).ch ≤ pngH) ∧
      (pngSpecLayout 5 true).c * (pngSpecLayout 5 true).cw ≤ pngW ∧
      (pngSpecLayout 5 true).t_h +
        (pngSpecLayout 5 true).r * (pngSpecLayout 5 true).ch ≤ pngH ∧
      (∀ x y, (pngSpecLayout 5 true).c * (pngSpecLayout 5 true).cw ≤ x →
        pngCovered (pngSpecLayout 5 true) x y = false) ∧
      (∀ x y, (pngSpecLayout 5 true).t_h +
          (pngSpecLayout 5 true).r * (pngSpecLayout 5 true).ch ≤ y →
        pngCovered (pngSpecLayout 5 true) x y = false)) :=
  ⟨by omega, by decide,
    collage_c9 (fun _ => true) 5 true (by omega) (pngSpecLayout 5 true)
      (by decide)⟩

end Collage
